import Mathlib

/-!
Verification of the MovieLens table-operator library (`movies.py`).

The program works on tables represented as Python lists of dicts.  We embed
them shallowly:

* a `Value` is a cell content: `null` (Python `None`), a string, or a number
  (Python ints/floats produced by coercion; modelled as rationals);
* a `Row` is an association list from column names to values, in insertion
  order, with unique keys (Python dict);
* fallible operations (Python exceptions) are modelled with `Except`;
  a Python function that can `return None` as a value is modelled with
  `Option` in the result.

Each operator of the source is translated as literally as possible; the
theorems below settle the specification claims about them.
-/

namespace Movies

/-- A cell value: Python `None`, a string, or a number (int/float, as `ℚ`). -/
inductive Value where
  | null : Value
  | str : String → Value
  | num : ℚ → Value
deriving DecidableEq

/-- A record: Python dict from column name to cell value, in insertion order,
keys unique. -/
abbrev Row := List (String × Value)

/-- `row.get(k)`-style lookup: first binding of `k`, if any. -/
def lookup? (row : Row) (k : String) : Option Value :=
  (row.find? (fun kv => kv.1 == k)).map (fun kv => kv.2)

/-- Python `row.get(k)`: `None` when the key is absent. -/
def cellD (row : Row) (k : String) : Value :=
  (lookup? row k).getD Value.null

/-- Python `row[k]`: raises `KeyError` when the key is absent. -/
def pyItem (row : Row) (k : String) : Except String Value :=
  match lookup? row k with
  | some v => Except.ok v
  | none => Except.error "KeyError"

/-- The key list of a record (Python `dict.keys()`). -/
def rowKeys (row : Row) : List String :=
  row.map (fun kv => kv.1)

/-- Python truthiness of a cell value (`if not row[column]`):
`None`, `""` and `0` are falsy. -/
def truthyCell (v : Value) : Bool :=
  match v with
  | Value.null => false
  | Value.str s => s != ""
  | Value.num q => q != 0

/-- Python truthiness of an optional integer argument (`if start and end`):
`None` and `0` are falsy. -/
def truthyInt (x : Option ℤ) : Bool :=
  match x with
  | none => false
  | some n => n != 0

/-- Digit-string to number: `none` unless the character list is a non-empty
run of decimal digits. -/
def digitsNat (cs : List Char) : Option ℕ :=
  if cs.isEmpty then none
  else
    cs.foldl
      (fun acc c =>
        match acc with
        | none => none
        | some n => if c.isDigit then some (n * 10 + (c.toNat - 48)) else none)
      (some 0)

/-- Python `int(string)`: an optional sign followed by decimal digits
(surrounding whitespace and underscore separators are not modelled);
anything else raises, i.e. yields `none`. -/
def pyIntStr (s : String) : Option ℤ :=
  match s.toList with
  | '-' :: cs => (digitsNat cs).map (fun n => -(n : ℤ))
  | '+' :: cs => (digitsNat cs).map (fun n => (n : ℤ))
  | cs => (digitsNat cs).map (fun n => (n : ℤ))

/-- Python `int(v)`: parses an integer literal from a string, truncates a
number toward zero, raises (`none`) on `None` or a non-integer string. -/
def pyInt? (v : Value) : Option ℤ :=
  match v with
  | Value.null => none
  | Value.str s => pyIntStr s
  | Value.num q => some (Int.tdiv q.num (q.den : ℤ))

/-- One filtering sweep of `filtered_data_col_in_range`: keeps the rows whose
cell in `col` is truthy and whose integer coercion satisfies `keep`; raises
`KeyError` on a missing column and `ValueError` on a failed coercion, exactly
as the loops in the source do. -/
def rangeKeep (col : String) (keep : ℤ → Bool) : List Row → Except String (List Row)
  | [] => Except.ok []
  | r :: rs =>
    match pyItem r col with
    | Except.error e => Except.error e
    | Except.ok v =>
      if truthyCell v then
        match pyInt? v with
        | none => Except.error "ValueError"
        | some n =>
          match rangeKeep col keep rs with
          | Except.error e => Except.error e
          | Except.ok rest => Except.ok (if keep n then r :: rest else rest)
      else
        rangeKeep col keep rs

/-- `filtered_data_col_in_range(data, column, start, end)` from the source.
The outer `Except` is a Python exception escaping the function; the inner
`Option` is the function's own result, where `none` is the literal
`return None` taken when both bounds are truthy and `start > end`. -/
def filtered_data_col_in_range (data : List Row) (column : String)
    (start end_ : Option ℤ) : Except String (Option (List Row)) :=
  if truthyInt start && truthyInt end_ then
    if start.getD 0 > end_.getD 0 then Except.ok none
    else (rangeKeep column (fun v => start.getD 0 ≥ v && v ≤ end_.getD 0) data).map some
  else if truthyInt start then
    (rangeKeep column (fun v => start.getD 0 ≤ v) data).map some
  else if truthyInt end_ then
    (rangeKeep column (fun v => v ≤ end_.getD 0) data).map some
  else
    Except.ok (some data)

/-- The row predicate realised by the both-bounds branch: the cell exists,
is truthy, and its integer value `n` satisfies `keep n`. -/
def rangePred (col : String) (keep : ℤ → Bool) (r : Row) : Bool :=
  match lookup? r col with
  | none => false
  | some v =>
    truthyCell v &&
      (match pyInt? v with
       | some n => keep n
       | none => false)

/-- Decidable side condition: every row has the column and every truthy cell
coerces to an integer, so the sweep raises no exception. -/
def rangeOk (col : String) (data : List Row) : Bool :=
  data.all (fun r =>
    match lookup? r col with
    | none => false
    | some v => !truthyCell v || (pyInt? v).isSome)

theorem rangeKeep_eq_filter (col : String) (keep : ℤ → Bool) (data : List Row)
    (h : rangeOk col data = true) :
    rangeKeep col keep data = Except.ok (data.filter (rangePred col keep)) := by
  induction data with
  | nil => rfl
  | cons r rs ih =>
    rw [rangeOk, List.all_cons, Bool.and_eq_true] at h
    obtain ⟨hr, hrs⟩ := h
    have ih' := ih hrs
    cases hv : lookup? r col with
    | none => rw [hv] at hr; exact absurd hr (by simp)
    | some v =>
      rw [hv] at hr
      rw [rangeKeep, pyItem, hv]
      by_cases ht : truthyCell v = true
      · have : (pyInt? v).isSome = true := by
          rcases Bool.or_eq_true _ _ |>.mp hr with h1 | h1
          · rw [ht] at h1; exact absurd h1 (by simp)
          · exact h1
        cases hn : pyInt? v with
        | none => rw [hn] at this; exact absurd this (by simp)
        | some n =>
          simp only [ht, if_true, hn, ih', List.filter_cons, rangePred, hv, ht,
            Bool.true_and]
      · have ht' : truthyCell v = false := by simpa using ht
        simp only [ht', Bool.false_eq_true, if_false, ih', List.filter_cons,
          rangePred, hv, ht', Bool.false_and, Bool.false_eq_true]

/-- C1 counterexample. The claim quantifies over all bounds "both given", but
the source guards the two-bound branch with Python truthiness (`if start and
end`), so a given-but-zero bound falls through to a single-bound branch.
With `start = 0`, `end = 10`, a row with value 5 is kept by the code although
the claimed rule `start >= value` is false (`0 >= 5` fails). -/
theorem C1_counterexample :
    filtered_data_col_in_range [[("year", Value.str "5")]] "year" (some 0) (some 10)
      = Except.ok (some [[("year", Value.str "5")]]) ∧ ¬ ((0 : ℤ) ≥ 5) :=
  ⟨rfl, by decide⟩

/-- C1 (amended): when both bounds are given as *truthy* (nonzero) integers
with `start ≤ end`, and every row has the column with truthy cells coercible
to integers, `filtered_data_col_in_range` keeps exactly the rows whose cell is
truthy (non-empty) and whose integer value `v` satisfies `start ≥ v` and
`v ≤ end` — the literal asymmetric comparison of the source. -/
theorem C1_range_filter_both_bounds (data : List Row) (col : String) (s e : ℤ)
    (hs : s ≠ 0) (he : e ≠ 0) (hse : s ≤ e) (hok : rangeOk col data = true) :
    filtered_data_col_in_range data col (some s) (some e) =
      Except.ok (some (data.filter (rangePred col (fun v => s ≥ v && v ≤ e)))) := by
  have h1 : truthyInt (some s) = true := by
    simp only [truthyInt, bne_iff_ne, ne_eq]; exact hs
  have h2 : truthyInt (some e) = true := by
    simp only [truthyInt, bne_iff_ne, ne_eq]; exact he
  rw [filtered_data_col_in_range, h1, h2]
  have hng : ¬ ((some s : Option ℤ).getD 0 > (some e : Option ℤ).getD 0) := by
    simpa using not_lt.mpr hse
  simp only [Bool.and_self, if_true, if_neg hng]
  rw [rangeKeep_eq_filter col _ data hok]
  rfl

/-- C1 witness: the documented scenario — value 7 with `start = 5`,
`end = 10` is excluded, because `5 ≥ 7` is false. -/
theorem C1_range_filter_both_bounds_witness :
    filtered_data_col_in_range [[("year", Value.str "7")]] "year" (some 5) (some 10)
      = Except.ok (some []) := by
  have h := C1_range_filter_both_bounds [[("year", Value.str "7")]] "year" 5 10
    (by decide) (by decide) (by decide) (by decide)
  rw [h]
  rfl

/-- C8 counterexample. The claim quantifies over every pair of bounds with
`start > end`, but a falsy bound (here `end = 0`) makes the source skip the
two-bound branch and its `start > end` guard entirely: with `start = 5`,
`end = 0` the code runs the lower-bound-only filter and returns a non-null,
non-empty row list instead of the claimed null result. -/
theorem C8_counterexample :
    filtered_data_col_in_range [[("year", Value.str "7")]] "year" (some 5) (some 0)
      = Except.ok (some [[("year", Value.str "7")]]) ∧ (5 : ℤ) > 0 :=
  ⟨rfl, by decide⟩

/-- C8 (amended): when both bounds are truthy (given and nonzero) and
`start > end`, `filtered_data_col_in_range` returns Python `None` (modelled
`Except.ok none`): no exception is raised and no row is filtered. -/
theorem C8_range_filter_start_gt_end (data : List Row) (col : String) (s e : ℤ)
    (hs : s ≠ 0) (he : e ≠ 0) (hgt : s > e) :
    filtered_data_col_in_range data col (some s) (some e) = Except.ok none := by
  have h1 : truthyInt (some s) = true := by
    simp only [truthyInt, bne_iff_ne, ne_eq]; exact hs
  have h2 : truthyInt (some e) = true := by
    simp only [truthyInt, bne_iff_ne, ne_eq]; exact he
  rw [filtered_data_col_in_range, h1, h2]
  simp [hgt]

/-- C8 witness: `start = 5`, `end = 3` on a one-row table yields `None`. -/
theorem C8_range_filter_start_gt_end_witness :
    filtered_data_col_in_range [[("year", Value.str "7")]] "year" (some 5) (some 3)
      = Except.ok none :=
  C8_range_filter_start_gt_end [[("year", Value.str "7")]] "year" 5 3
    (by decide) (by decide) (by decide)

/-! ### Sort operator (`get_sorted_data`)

`sorted(data, key=lambda k: (k[sort_by] is not None, k[sort_by]), reverse=r)`
compares rows by the composite key `(value is not None, value)` and is stable;
with `reverse=True` every comparison is flipped while ties keep their original
order.  Cells of the sort column carry either `None` or a value of one ordered
type `α` (Python raises on cross-type comparisons, which never happen here
because the flag part separates `None` from values and the claims quantify
over single-typed columns). -/

/-- A record for the sort operator: cells are `None` or a value of an ordered
type `α`. -/
abbrev SRow (α : Type) := List (String × Option α)

/-- The cell of the sort column (`k[sort_by]`); a missing column, which would
raise `KeyError` in Python, is conflated with `None` and excluded from the
claims by hypothesis. -/
def cellS {α : Type} (r : SRow α) (col : String) : Option α :=
  ((r.find? (fun kv => kv.1 == col)).map (fun kv => kv.2)).join

/-- The composite sort key `(k[sort_by] is not None, k[sort_by])`. -/
def sortKey {α : Type} (col : String) (r : SRow α) : Bool × Option α :=
  ((cellS r col).isSome, cellS r col)

/-- Ordering of the optional second key component.  Both-`none` keys compare
equal; `none` versus `some` never arises in a comparison of equal flags, so
any tie-break there is unobservable (we pick `none ≤ some _`). -/
def optLe {α : Type} [LinearOrder α] : Option α → Option α → Bool
  | none, _ => true
  | some _, none => false
  | some a, some b => decide (a ≤ b)

/-- Lexicographic comparison of composite keys (`False < True` on the flag,
then the value). -/
def keyLe {α : Type} [LinearOrder α] (p q : Bool × Option α) : Bool :=
  (!p.1 && q.1) || (p.1 == q.1 && optLe p.2 q.2)

/-- The row comparison realised by `sorted(..., reverse=reverse)`: the
composite keys are compared, in flipped orientation when `reverse` is set. -/
def rowLe {α : Type} [LinearOrder α] (col : String) (reverse : Bool)
    (a b : SRow α) : Bool :=
  if reverse then keyLe (sortKey col b) (sortKey col a)
  else keyLe (sortKey col a) (sortKey col b)

/-- `get_sorted_data(data, sort_by, reverse)` from the source: Python's
stable `sorted` on the composite key, embedded as a stable merge sort. -/
def get_sorted_data {α : Type} [LinearOrder α] (data : List (SRow α))
    (sort_by : String) (reverse : Bool) : List (SRow α) :=
  data.mergeSort (rowLe sort_by reverse)

theorem optLe_refl {α : Type} [LinearOrder α] (a : Option α) : optLe a a = true := by
  cases a with
  | none => rfl
  | some a => simp [optLe]

theorem optLe_trans {α : Type} [LinearOrder α] :
    ∀ a b c : Option α, optLe a b = true → optLe b c = true → optLe a c = true
  | none, _, _, _, _ => rfl
  | some _, none, _, h, _ => by simp [optLe] at h
  | some _, some _, none, _, h => by simp [optLe] at h
  | some a, some b, some c, h1, h2 => by
    simp only [optLe, decide_eq_true_eq] at h1 h2 ⊢
    exact le_trans h1 h2

theorem optLe_total {α : Type} [LinearOrder α] :
    ∀ a b : Option α, (optLe a b || optLe b a) = true
  | none, _ => by simp [optLe]
  | some _, none => by simp [optLe]
  | some a, some b => by
    simp only [optLe, Bool.or_eq_true, decide_eq_true_eq]
    exact le_total a b

theorem keyLe_refl {α : Type} [LinearOrder α] (p : Bool × Option α) :
    keyLe p p = true := by
  simp [keyLe, optLe_refl]

theorem keyLe_trans {α : Type} [LinearOrder α] :
    ∀ p q r : Bool × Option α, keyLe p q = true → keyLe q r = true → keyLe p r = true := by
  rintro ⟨pb, pv⟩ ⟨qb, qv⟩ ⟨rb, rv⟩ h1 h2
  cases pb <;> cases qb <;> cases rb <;> simp_all [keyLe] <;>
    exact optLe_trans _ _ _ h1 h2

theorem keyLe_total {α : Type} [LinearOrder α] :
    ∀ p q : Bool × Option α, (keyLe p q || keyLe q p) = true := by
  rintro ⟨pb, pv⟩ ⟨qb, qv⟩
  cases pb <;> cases qb <;> simp_all [keyLe] <;>
    simpa using optLe_total pv qv

theorem rowLe_trans {α : Type} [LinearOrder α] (col : String) (rev : Bool) :
    ∀ a b c : SRow α, rowLe col rev a b = true → rowLe col rev b c = true →
      rowLe col rev a c = true := by
  intro a b c h1 h2
  cases rev with
  | false =>
    simp only [rowLe, if_false, Bool.false_eq_true] at h1 h2 ⊢
    exact keyLe_trans _ _ _ h1 h2
  | true =>
    simp only [rowLe, if_true] at h1 h2 ⊢
    exact keyLe_trans _ _ _ h2 h1

theorem rowLe_total {α : Type} [LinearOrder α] (col : String) (rev : Bool) :
    ∀ a b : SRow α, (rowLe col rev a b || rowLe col rev b a) = true := by
  intro a b
  cases rev with
  | false => simpa [rowLe] using keyLe_total (sortKey col a) (sortKey col b)
  | true => simpa [rowLe] using keyLe_total (sortKey col b) (sortKey col a)

/-- Stability of the embedded sort: the subsequence of rows with any fixed
composite key is unchanged. -/
theorem get_sorted_data_stable {α : Type} [LinearOrder α]
    (data : List (SRow α)) (col : String) (rev : Bool) (k : Bool × Option α) :
    (get_sorted_data data col rev).filter (fun r => decide (sortKey col r = k)) =
      data.filter (fun r => decide (sortKey col r = k)) := by
  set p : SRow α → Bool := fun r => decide (sortKey col r = k) with hp
  have hpair : (data.filter p).Pairwise (fun a b => rowLe col rev a b = true) := by
    apply List.pairwise_of_forall_mem_list
    intro a ha b hb
    have hka : sortKey col a = k := by
      have := List.of_mem_filter ha
      simpa [hp] using this
    have hkb : sortKey col b = k := by
      have := List.of_mem_filter hb
      simpa [hp] using this
    cases rev with
    | false => simpa [rowLe, hka, hkb] using keyLe_refl k
    | true => simpa [rowLe, hka, hkb] using keyLe_refl k
  have hsub : (data.filter p).Sublist (get_sorted_data data col rev) :=
    List.sublist_mergeSort (rowLe_trans col rev) (rowLe_total col rev)
      hpair (List.filter_sublist data)
  have hsub2 : (data.filter p).Sublist ((get_sorted_data data col rev).filter p) := by
    have := hsub.filter p
    simpa [List.filter_filter] using this
  have hperm : ((get_sorted_data data col rev).filter p).Perm (data.filter p) :=
    (List.mergeSort_perm data (rowLe col rev)).filter p
  exact (hsub2.eq_of_length hperm.length_eq.symm).symm

/-- A key that is `≤` a null key must itself be null: the flag component of
`(value is not None, value)` puts `None` strictly below every value. -/
theorem keyLe_none_right {α : Type} [LinearOrder α] (col : String) (a b : SRow α)
    (h : keyLe (sortKey col a) (sortKey col b) = true) (hb : cellS b col = none) :
    cellS a col = none := by
  cases ha : cellS a col with
  | none => rfl
  | some v =>
    rw [keyLe, sortKey, sortKey, ha, hb] at h
    simp [optLe] at h

/-- C2: `get_sorted_data` is a stable sort on the composite key
`(cell is not None, cell)`, with the whole key comparison reversed under
`reverse=True`: the output is a permutation of the input, pairwise ordered by
the (possibly flipped) key comparison, rows of equal key keep their input
order, and hence null cells land before all non-null ones when
`reverse=False` and after all of them when `reverse=True`. -/
theorem C2_sort_stable_null_placement {α : Type} [LinearOrder α]
    (data : List (SRow α)) (col : String)
    (hcols : ∀ r ∈ data, (r.find? (fun kv => kv.1 == col)).isSome = true) :
    ((get_sorted_data data col false).Perm data
      ∧ (get_sorted_data data col true).Perm data)
    ∧ ((get_sorted_data data col false).Pairwise
          (fun a b => keyLe (sortKey col a) (sortKey col b) = true)
        ∧ (get_sorted_data data col true).Pairwise
          (fun a b => keyLe (sortKey col b) (sortKey col a) = true))
    ∧ (∀ k : Bool × Option α,
        (get_sorted_data data col false).filter (fun r => decide (sortKey col r = k)) =
            data.filter (fun r => decide (sortKey col r = k))
        ∧ (get_sorted_data data col true).filter (fun r => decide (sortKey col r = k)) =
            data.filter (fun r => decide (sortKey col r = k)))
    ∧ ((get_sorted_data data col false).Pairwise
          (fun a b => cellS b col = none → cellS a col = none)
        ∧ (get_sorted_data data col true).Pairwise
          (fun a b => cellS a col = none → cellS b col = none)) := by
  have hsorted_asc :
      (get_sorted_data data col false).Pairwise
        (fun a b => keyLe (sortKey col a) (sortKey col b) = true) := by
    have := @List.sorted_mergeSort _ (rowLe col false)
      (rowLe_trans col false) (rowLe_total col false) data
    exact this.imp (fun h => by simpa [rowLe] using h)
  have hsorted_desc :
      (get_sorted_data data col true).Pairwise
        (fun a b => keyLe (sortKey col b) (sortKey col a) = true) := by
    have := @List.sorted_mergeSort _ (rowLe col true)
      (rowLe_trans col true) (rowLe_total col true) data
    exact this.imp (fun h => by simpa [rowLe] using h)
  refine ⟨⟨List.mergeSort_perm data _, List.mergeSort_perm data _⟩,
    ⟨hsorted_asc, hsorted_desc⟩,
    (fun k => ⟨get_sorted_data_stable data col false k,
      get_sorted_data_stable data col true k⟩),
    ⟨?_, ?_⟩⟩
  · exact hsorted_asc.imp (fun h hb => keyLe_none_right col _ _ h hb)
  · exact hsorted_desc.imp (fun h ha => keyLe_none_right col _ _ h ha)

/-- C2 witness: a three-row table over integer cells with one null satisfies
the hypothesis, and the sorted outputs are permutations of it. -/
theorem C2_sort_stable_null_placement_witness :
    (∀ r ∈ ([[("r", (some 2 : Option ℤ))], [("r", none)], [("r", some 1)]] :
        List (SRow ℤ)), (r.find? (fun kv => kv.1 == "r")).isSome = true)
    ∧ (get_sorted_data
        ([[("r", (some 2 : Option ℤ))], [("r", none)], [("r", some 1)]] :
          List (SRow ℤ)) "r" false).Perm
        [[("r", (some 2 : Option ℤ))], [("r", none)], [("r", some 1)]] :=
  ⟨by decide,
    (C2_sort_stable_null_placement
      ([[("r", (some 2 : Option ℤ))], [("r", none)], [("r", some 1)]] :
        List (SRow ℤ)) "r" (by decide)).1.1⟩

/-! ### Merge-join operator (`merged_data`)

The source keeps a right-side cursor `data_r_start`, scans the right table
from the cursor for each left row, merges `{**row_left, **data_right[i]}` on
the first key match and sets the cursor to the matched index `i`, or emits
`{**row_left, **right_none}` and leaves the cursor alone.  An empty right
table raises `IndexError` at `data_right[0]`.  A missing `join_on` key would
raise `KeyError`; it is conflated with a null cell here and excluded from the
claims by hypothesis. -/

/-- Python `{**a, **b}` for dicts with unique keys: `a`'s keys in order with
`b`'s values overriding, then `b`'s remaining keys in order. -/
def dictUnion (a b : Row) : Row :=
  a.map (fun kv => (kv.1, (lookup? b kv.1).getD kv.2)) ++
    b.filter (fun kv => (lookup? a kv.1).isNone)

/-- `right_none = {e: None for e in columns_right if e != join_on}` from the
source: every right column other than the join key, mapped to null. -/
def rightNoneRow (right0 : Row) (join_on : String) : Row :=
  ((rowKeys right0).filter (fun k => k != join_on)).map (fun k => (k, Value.null))

/-- `for i in range(data_r_start, len(data_right))`: the first right index at
or after the cursor whose `join_on` cell equals `key`. -/
def findFrom (right : List Row) (join_on : String) (key : Value) (c : ℕ) : Option ℕ :=
  (List.range' c (right.length - c)).find?
    (fun i => cellD (right.getD i []) join_on == key)

/-- One iteration of the left-row loop of `merged_data`: the state is the
accumulated output and the cursor. -/
def mergeStep (right : List Row) (rn : Row) (join_on : String)
    (st : List Row × ℕ) (row_left : Row) : List Row × ℕ :=
  match findFrom right join_on (cellD row_left join_on) st.2 with
  | some i => (st.1 ++ [dictUnion row_left (right.getD i [])], i)
  | none => (st.1 ++ [dictUnion row_left rn], st.2)

/-- The loop of `merged_data` over the left rows, started at cursor 0. -/
def mergeState (right : List Row) (join_on : String) (left : List Row) :
    List Row × ℕ :=
  left.foldl (mergeStep right (rightNoneRow (right.getD 0 []) join_on) join_on) ([], 0)

/-- `merged_data(data_left, data_right, join_on)` from the source; an empty
right table raises `IndexError` (`data_right[0]`). -/
def merged_data (data_left data_right : List Row) (join_on : String) :
    Except String (List Row) :=
  match data_right with
  | [] => Except.error "IndexError"
  | _ :: _ => Except.ok (mergeState data_right join_on data_left).1

/-- The cursor value before the `k`-th left row is processed. -/
def cursorAt (right : List Row) (join_on : String) (left : List Row) (k : ℕ) : ℕ :=
  (mergeState right join_on (left.take k)).2

/-- The right index matched by the `k`-th left row, if any. -/
def matchIdxAt (right : List Row) (join_on : String) (left : List Row) (k : ℕ) :
    Option ℕ :=
  findFrom right join_on (cellD (left.getD k []) join_on) (cursorAt right join_on left k)

/-- Recursive restatement of the output of the left-row loop, used to reason
about the fold. -/
def mergeRec (right : List Row) (rn : Row) (join_on : String) :
    List Row → ℕ → List Row
  | [], _ => []
  | l :: ls, c =>
    match findFrom right join_on (cellD l join_on) c with
    | some i => dictUnion l (right.getD i []) :: mergeRec right rn join_on ls i
    | none => dictUnion l rn :: mergeRec right rn join_on ls c

/-- Recursive restatement of the final cursor of the left-row loop. -/
def cursorRec (right : List Row) (join_on : String) : List Row → ℕ → ℕ
  | [], c => c
  | l :: ls, c =>
    match findFrom right join_on (cellD l join_on) c with
    | some i => cursorRec right join_on ls i
    | none => cursorRec right join_on ls c

theorem mergeFold_eq_rec (right : List Row) (rn : Row) (join_on : String) :
    ∀ (left : List Row) (acc : List Row) (c : ℕ),
      left.foldl (mergeStep right rn join_on) (acc, c) =
        (acc ++ mergeRec right rn join_on left c, cursorRec right join_on left c)
  | [], acc, c => by simp [mergeRec, cursorRec]
  | l :: ls, acc, c => by
    rw [List.foldl_cons]
    cases hf : findFrom right join_on (cellD l join_on) c with
    | some i =>
      rw [show mergeStep right rn join_on (acc, c) l =
          (acc ++ [dictUnion l (right.getD i [])], i) by rw [mergeStep, hf]]
      rw [mergeFold_eq_rec right rn join_on ls _ i]
      simp [mergeRec, cursorRec, hf]
    | none =>
      rw [show mergeStep right rn join_on (acc, c) l =
          (acc ++ [dictUnion l rn], c) by rw [mergeStep, hf]]
      rw [mergeFold_eq_rec right rn join_on ls _ c]
      simp [mergeRec, cursorRec, hf]

theorem mergeState_eq_rec (right : List Row) (join_on : String) (left : List Row) :
    mergeState right join_on left =
      (mergeRec right (rightNoneRow (right.getD 0 []) join_on) join_on left 0,
        cursorRec right join_on left 0) := by
  rw [mergeState, mergeFold_eq_rec]
  simp

theorem mergeRec_length (right : List Row) (rn : Row) (join_on : String) :
    ∀ (left : List Row) (c : ℕ),
      (mergeRec right rn join_on left c).length = left.length
  | [], _ => rfl
  | l :: ls, c => by
    rw [mergeRec]
    cases hf : findFrom right join_on (cellD l join_on) c <;>
      simp [mergeRec_length right rn join_on ls]

theorem mergeRec_getD (right : List Row) (rn : Row) (join_on : String) :
    ∀ (left : List Row) (c k : ℕ), k < left.length →
      (mergeRec right rn join_on left c).getD k [] =
        (match findFrom right join_on (cellD (left.getD k []) join_on)
            (cursorRec right join_on (left.take k) c) with
         | some i => dictUnion (left.getD k []) (right.getD i [])
         | none => dictUnion (left.getD k []) rn)
  | l :: ls, c, 0, _ => by
    rw [mergeRec]
    cases hf : findFrom right join_on (cellD l join_on) c <;>
      simp [cursorRec, hf]
  | l :: ls, c, k + 1, h => by
    have hk : k < ls.length := by simpa using Nat.lt_of_succ_lt_succ h
    rw [mergeRec, List.take_succ_cons]
    cases hf : findFrom right join_on (cellD l join_on) c with
    | some i =>
      rw [List.getD_cons_succ, mergeRec_getD right rn join_on ls i k hk]
      rw [cursorRec, hf, List.getD_cons_succ]
    | none =>
      rw [List.getD_cons_succ, mergeRec_getD right rn join_on ls c k hk]
      rw [cursorRec, hf, List.getD_cons_succ]

theorem cursorRec_take_succ (right : List Row) (join_on : String) :
    ∀ (left : List Row) (c k : ℕ), k < left.length →
      cursorRec right join_on (left.take (k + 1)) c =
        (match findFrom right join_on (cellD (left.getD k []) join_on)
            (cursorRec right join_on (left.take k) c) with
         | some i => i
         | none => cursorRec right join_on (left.take k) c)
  | l :: ls, c, 0, _ => by
    rw [List.take_succ_cons, List.take_zero, cursorRec]
    cases hf : findFrom right join_on (cellD l join_on) c <;>
      simp [cursorRec, hf]
  | l :: ls, c, k + 1, h => by
    have hk : k < ls.length := by simpa using Nat.lt_of_succ_lt_succ h
    rw [List.take_succ_cons, List.take_succ_cons, cursorRec]
    cases hf : findFrom right join_on (cellD l join_on) c with
    | some i =>
      rw [cursorRec, hf, List.getD_cons_succ]
      exact cursorRec_take_succ right join_on ls i k hk
    | none =>
      rw [cursorRec, hf, List.getD_cons_succ]
      exact cursorRec_take_succ right join_on ls c k hk

/-- A successful scan from cursor `c` lands at or after `c`, inside the right
table, on a row whose join cell equals the key. -/
theorem findFrom_ge (right : List Row) (join_on : String) (key : Value)
    (c i : ℕ) (h : findFrom right join_on key c = some i) :
    c ≤ i ∧ i < right.length ∧ cellD (right.getD i []) join_on = key := by
  have hmem : i ∈ List.range' c (right.length - c) :=
    List.mem_of_find?_eq_some h
  have hpred := List.find?_some h
  rw [List.mem_range'_1] at hmem
  refine ⟨hmem.1, by omega, ?_⟩
  exact beq_iff_eq.mp hpred

theorem cursorRec_ge (right : List Row) (join_on : String) :
    ∀ (left : List Row) (c : ℕ), c ≤ cursorRec right join_on left c
  | [], _ => le_refl _
  | l :: ls, c => by
    rw [cursorRec]
    cases hf : findFrom right join_on (cellD l join_on) c with
    | some i =>
      exact le_trans (findFrom_ge right join_on _ c i hf).1
        (cursorRec_ge right join_on ls i)
    | none => exact cursorRec_ge right join_on ls c

theorem cursorAt_eq_rec (right : List Row) (join_on : String)
    (left : List Row) (k : ℕ) :
    cursorAt right join_on left k = cursorRec right join_on (left.take k) 0 := by
  rw [cursorAt, mergeState_eq_rec]

/-- The cursor never decreases from one left row to the next. -/
theorem cursorAt_le_succ (right : List Row) (join_on : String)
    (left : List Row) (k : ℕ) :
    cursorAt right join_on left k ≤ cursorAt right join_on left (k + 1) := by
  rw [cursorAt_eq_rec, cursorAt_eq_rec]
  by_cases hk : k < left.length
  · rw [cursorRec_take_succ right join_on left 0 k hk]
    cases hf : findFrom right join_on (cellD (left.getD k []) join_on)
        (cursorRec right join_on (left.take k) 0) with
    | some i => exact (findFrom_ge right join_on _ _ i hf).1
    | none => exact le_refl _
  · rw [List.take_of_length_le (by omega), List.take_of_length_le (by omega)]

theorem lookup?_eq_none_iff (row : Row) (k : String) :
    lookup? row k = none ↔ k ∉ rowKeys row := by
  simp only [lookup?, rowKeys, Option.map_eq_none', List.find?_eq_none,
    List.mem_map, beq_iff_eq, not_exists]
  constructor
  · rintro h ⟨k', v⟩ ⟨hmem, hk⟩
    exact h (k', v) hmem (by simpa using hk)
  · rintro h ⟨k', v⟩ hmem hk
    exact h (k', v) ⟨hmem, by simpa using hk⟩

theorem lookup?_isSome_of_mem (row : Row) (k : String) (h : k ∈ rowKeys row) :
    (lookup? row k).isSome = true := by
  rw [rowKeys, List.mem_map] at h
  obtain ⟨kv, hmem, hk⟩ := h
  rw [lookup?, Option.isSome_map']
  exact List.find?_isSome.mpr ⟨kv, hmem, by simp [hk]⟩

theorem lookup?_isNone_eq (a : Row) (k : String) :
    (lookup? a k).isNone = !((rowKeys a).contains k) := by
  by_cases h : k ∈ rowKeys a
  · have h1 := lookup?_isSome_of_mem a k h
    have h2 : (rowKeys a).contains k = true := by simpa using h
    rw [h2]
    cases hl : lookup? a k with
    | none => rw [hl] at h1; simp at h1
    | some v => rfl
  · have h1 : lookup? a k = none := (lookup?_eq_none_iff a k).mpr h
    have h2 : (rowKeys a).contains k = false := by simpa using h
    rw [h1, h2]
    rfl

/-- Column set of a Python dict merge: the left keys in order, then the keys
that occur only on the right, in order. -/
theorem rowKeys_dictUnion (a b : Row) :
    rowKeys (dictUnion a b) =
      rowKeys a ++ (rowKeys b).filter (fun c => (lookup? a c).isNone) := by
  rw [dictUnion, rowKeys, List.map_append]
  congr 1
  · rw [List.map_map]
    rfl
  · show List.map (fun kv => kv.1) (List.filter (fun kv => (lookup? a kv.1).isNone) b) =
        List.filter (fun c => (lookup? a c).isNone) (List.map (fun kv => kv.1) b)
    rw [List.filter_map]
    rfl

/-- In a merged row the join key occurs exactly once, provided the left row
contains it (with unique keys): the right copy is suppressed. -/
theorem count_join_key_dictUnion (a b : Row) (join_on : String)
    (hmem : join_on ∈ rowKeys a) (hnod : (rowKeys a).Nodup) :
    (rowKeys (dictUnion a b)).count join_on = 1 := by
  rw [rowKeys_dictUnion, List.count_append]
  have h1 : (rowKeys a).count join_on = 1 := List.count_eq_one_of_mem hnod hmem
  have h2 : ((rowKeys b).filter (fun c => (lookup? a c).isNone)).count join_on = 0 := by
    rw [List.count_eq_zero]
    intro hmem2
    have hpred := List.of_mem_filter hmem2
    have hsome := lookup?_isSome_of_mem a join_on hmem
    rw [Option.isNone_iff_eq_none] at hpred
    rw [hpred] at hsome
    cases hsome
  omega

theorem merged_data_ok (data_left data_right : List Row) (join_on : String)
    (out : List Row) (ho : merged_data data_left data_right join_on = Except.ok out) :
    out = mergeRec data_right
      (rightNoneRow (data_right.getD 0 []) join_on) join_on data_left 0 := by
  cases data_right with
  | nil => exact absurd ho (by simp [merged_data])
  | cons r rs =>
    rw [merged_data, mergeState_eq_rec] at ho
    exact (Except.ok.injEq _ _ ▸ ho).symm

/-- C3 counterexample.  The claim says an unmatched left row keeps its own
values and only *right-only* columns become null; but the source nulls every
non-key right column, including a column the left row shares.  Left and right
both carry a non-key column `x`: the unmatched output row has `x = None`
instead of the left value `"a"`. -/
theorem C3_counterexample :
    merged_data [[("k", Value.str "1"), ("x", Value.str "a")]]
        [[("k", Value.str "2"), ("x", Value.str "b")]] "k"
      = Except.ok [[("k", Value.str "1"), ("x", Value.null)]]
    ∧ Value.null ≠ Value.str "a" :=
  ⟨rfl, by decide⟩

/-- C3 (amended): `merged_data` emits exactly one output row per left row in
left order; a left row with no key-equal right row at or after the cursor is
emitted as the left row merged with `right_none` — every *non-key right*
column set to null (overriding a shared non-key left value, as the
counterexample shows) — and the cursor is left unchanged by that row.
Requires a non-empty right table (otherwise the source raises `IndexError`),
expressed by the hypothesis that the call returned `ok`. -/
theorem C3_join_unmatched (data_left data_right : List Row) (join_on : String)
    (out : List Row) (ho : merged_data data_left data_right join_on = Except.ok out) :
    out.length = data_left.length
    ∧ ∀ k, k < data_left.length →
        matchIdxAt data_right join_on data_left k = none →
        out.getD k [] =
          dictUnion (data_left.getD k [])
            (rightNoneRow (data_right.getD 0 []) join_on)
        ∧ cursorAt data_right join_on data_left (k + 1) =
            cursorAt data_right join_on data_left k := by
  have hout := merged_data_ok data_left data_right join_on out ho
  constructor
  · rw [hout, mergeRec_length]
  · intro k hk hnone
    rw [matchIdxAt, cursorAt_eq_rec] at hnone
    constructor
    · rw [hout, mergeRec_getD _ _ _ data_left 0 k hk, hnone]
    · rw [cursorAt_eq_rec, cursorAt_eq_rec,
        cursorRec_take_succ data_right join_on data_left 0 k hk, hnone]

/-- C3 witness: one left row whose key matches nothing on the right; the
right-only column `rating` is nulled and the output has one row. -/
theorem C3_join_unmatched_witness :
    merged_data [[("movieId", Value.str "1")]]
        [[("movieId", Value.str "2"), ("rating", Value.str "5")]] "movieId"
      = Except.ok [[("movieId", Value.str "1"), ("rating", Value.null)]]
    ∧ ([[("movieId", Value.str "1"), ("rating", Value.null)]] : List Row).length
        = ([[("movieId", Value.str "1")]] : List Row).length :=
  ⟨rfl,
    (C3_join_unmatched [[("movieId", Value.str "1")]]
      [[("movieId", Value.str "2"), ("rating", Value.str "5")]] "movieId"
      [[("movieId", Value.str "1"), ("rating", Value.null)]] rfl).1⟩

/-- C4 counterexample.  The claim says right fields override *only* the join
key and the left row retains all its non-key values; but `{**row_left,
**data_right[i]}` lets the right value win on every shared column.  With a
shared non-key column `x`, the matched output carries the right value `"b"`,
not the left value `"a"`. -/
theorem C4_counterexample :
    merged_data [[("k", Value.str "1"), ("x", Value.str "a")]]
        [[("k", Value.str "1"), ("x", Value.str "b")]] "k"
      = Except.ok [[("k", Value.str "1"), ("x", Value.str "b")]]
    ∧ Value.str "b" ≠ Value.str "a" :=
  ⟨rfl, by decide⟩

/-- C4 (amended): a matched left row is emitted as the Python dict merge
`{**row_left, **data_right[i]}`: right fields override on *every* shared
column (on the join key the two sides agree; the left row keeps only the
values of columns the right row lacks); the output column set is the left
columns followed by the right-only columns, and the join-key column appears
exactly once when the left row contains it with unique keys. -/
theorem C4_join_matched (data_left data_right : List Row) (join_on : String)
    (out : List Row) (ho : merged_data data_left data_right join_on = Except.ok out)
    (k i : ℕ) (hk : k < data_left.length)
    (hm : matchIdxAt data_right join_on data_left k = some i) :
    out.getD k [] = dictUnion (data_left.getD k []) (data_right.getD i [])
    ∧ rowKeys (out.getD k []) =
        rowKeys (data_left.getD k []) ++
          (rowKeys (data_right.getD i [])).filter
            (fun c => (lookup? (data_left.getD k []) c).isNone)
    ∧ (join_on ∈ rowKeys (data_left.getD k []) →
        (rowKeys (data_left.getD k [])).Nodup →
        (rowKeys (out.getD k [])).count join_on = 1) := by
  have hout := merged_data_ok data_left data_right join_on out ho
  rw [matchIdxAt, cursorAt_eq_rec] at hm
  have hrow : out.getD k [] =
      dictUnion (data_left.getD k []) (data_right.getD i []) := by
    rw [hout, mergeRec_getD _ _ _ data_left 0 k hk, hm]
  refine ⟨hrow, ?_, ?_⟩
  · rw [hrow, rowKeys_dictUnion]
  · intro hmem hnod
    rw [hrow]
    exact count_join_key_dictUnion _ _ join_on hmem hnod

/-- C4 witness: one matched row with a right-only column; columns are the
union and the join key appears once. -/
theorem C4_join_matched_witness :
    merged_data [[("movieId", Value.str "1"), ("title", Value.str "T")]]
        [[("movieId", Value.str "1"), ("rating", Value.str "5")]] "movieId"
      = Except.ok [[("movieId", Value.str "1"), ("title", Value.str "T"),
          ("rating", Value.str "5")]]
    ∧ (rowKeys (([[("movieId", Value.str "1"), ("title", Value.str "T"),
          ("rating", Value.str "5")]] : List Row).getD 0 [])).count "movieId" = 1 :=
  ⟨rfl,
    (C4_join_matched [[("movieId", Value.str "1"), ("title", Value.str "T")]]
      [[("movieId", Value.str "1"), ("rating", Value.str "5")]] "movieId"
      [[("movieId", Value.str "1"), ("title", Value.str "T"),
        ("rating", Value.str "5")]] rfl 0 0 (by decide) rfl).2.2
      (by decide) (by decide)⟩

/-- C5 counterexample.  The claim says each right row is merged into at most
one output row *for every pair of input tables*; but on a match the cursor is
set to the matched index `i` (not `i + 1`), so a duplicated left key re-matches
the same right row: both left rows match right row 0 and both output rows
carry its `x = "b"`. -/
theorem C5_counterexample :
    matchIdxAt [[("k", Value.str "1"), ("x", Value.str "b")]] "k"
        [[("k", Value.str "1")], [("k", Value.str "1")]] 0 = some 0
    ∧ matchIdxAt [[("k", Value.str "1"), ("x", Value.str "b")]] "k"
        [[("k", Value.str "1")], [("k", Value.str "1")]] 1 = some 0
    ∧ merged_data [[("k", Value.str "1")], [("k", Value.str "1")]]
        [[("k", Value.str "1"), ("x", Value.str "b")]] "k"
      = Except.ok [[("k", Value.str "1"), ("x", Value.str "b")],
          [("k", Value.str "1"), ("x", Value.str "b")]] :=
  ⟨rfl, rfl, rfl⟩

/-- C5 (amended): over the sweep of left rows the right-side cursor never
decreases; and *when the left key column is duplicate-free* each right row is
merged into at most one output row (two matched left positions pointing at
the same right index coincide).  Without that restriction the property fails,
as the counterexample shows. -/
theorem C5_join_cursor_monotone (data_left data_right : List Row)
    (join_on : String) (out : List Row)
    (ho : merged_data data_left data_right join_on = Except.ok out) :
    (∀ k k', k ≤ k' →
        cursorAt data_right join_on data_left k ≤
          cursorAt data_right join_on data_left k')
    ∧ ((data_left.map (fun r => cellD r join_on)).Nodup →
        ∀ i k k', k < data_left.length → k' < data_left.length →
          matchIdxAt data_right join_on data_left k = some i →
          matchIdxAt data_right join_on data_left k' = some i →
          k = k') := by
  constructor
  · have hstep : ∀ d k, cursorAt data_right join_on data_left k ≤
        cursorAt data_right join_on data_left (k + d) := by
      intro d
      induction d with
      | zero => intro k; exact le_refl _
      | succ n ih =>
        intro k
        have hs := cursorAt_le_succ data_right join_on data_left (k + n)
        rw [show k + (n + 1) = (k + n) + 1 by omega]
        exact le_trans (ih k) hs
    intro k k' hle
    have : k' = k + (k' - k) := by omega
    rw [this]
    exact hstep (k' - k) k
  · intro hnodup i k k' hk hk' hm hm'
    have h1 := (findFrom_ge data_right join_on _ _ i hm).2.2
    have h2 := (findFrom_ge data_right join_on _ _ i hm').2.2
    have hkey : cellD (data_left.getD k []) join_on =
        cellD (data_left.getD k' []) join_on := by rw [← h1, ← h2]
    have hgk : data_left.getD k [] = data_left[k] := by
      rw [List.getD_eq_getElem?_getD, List.getElem?_eq_getElem hk]
      rfl
    have hgk' : data_left.getD k' [] = data_left[k'] := by
      rw [List.getD_eq_getElem?_getD, List.getElem?_eq_getElem hk']
      rfl
    rw [hgk, hgk'] at hkey
    have hlen : k < (data_left.map (fun r => cellD r join_on)).length := by
      simpa using hk
    have hlen' : k' < (data_left.map (fun r => cellD r join_on)).length := by
      simpa using hk'
    have hmap : (data_left.map (fun r => cellD r join_on))[k] =
        (data_left.map (fun r => cellD r join_on))[k'] := by
      rw [List.getElem_map, List.getElem_map]
      exact hkey
    exact hnodup.getElem_inj_iff.mp hmap

/-- C5 witness: a two-row join where the cursor is monotone and, the left
keys being distinct, matched right indices determine the left position. -/
theorem C5_join_cursor_monotone_witness :
    merged_data [[("k", Value.str "1")], [("k", Value.str "2")]]
        [[("k", Value.str "1")], [("k", Value.str "2")]] "k"
      = Except.ok [[("k", Value.str "1")], [("k", Value.str "2")]]
    ∧ cursorAt [[("k", Value.str "1")], [("k", Value.str "2")]] "k"
        [[("k", Value.str "1")], [("k", Value.str "2")]] 0 ≤
      cursorAt [[("k", Value.str "1")], [("k", Value.str "2")]] "k"
        [[("k", Value.str "1")], [("k", Value.str "2")]] 2 :=
  ⟨rfl,
    (C5_join_cursor_monotone [[("k", Value.str "1")], [("k", Value.str "2")]]
      [[("k", Value.str "1")], [("k", Value.str "2")]] "k"
      [[("k", Value.str "1")], [("k", Value.str "2")]] rfl).1 0 2 (by omega)⟩

/-! ### Group-by aggregators (`get_groupped_data`, `get_groupped_data_from_file`)

`get_groupped_data` uses `itertools.groupby(data, key=lambda x: x[group_by])`:
it aggregates maximal *contiguous* runs of equal keys.
`get_groupped_data_from_file` accumulates `float(row.get(agg_col))` per exact
key into an insertion-ordered dict while scanning once, then emits one row per
distinct key; its `try/except` returns the empty list on a parse failure.
Aggregated values are Python floats; we model them as rationals.  `round(x, 4)`
on floats uses shortest-repr/banker rules; the model rounds half away from
zero via Mathlib `round` — no claim depends on the rounded value. -/

/-- `statistics.mean` / `sum(v)/len(v)` (never called on an empty list). -/
def pymean (l : List ℚ) : ℚ := l.sum / (l.length : ℚ)

/-- Floor of a rational, computed on the normalised representation. -/
def ratFloor (q : ℚ) : ℤ := Int.fdiv q.num (q.den : ℤ)

/-- `round(x, 4)` (tie behaviour approximated, see section comment): round
half up at the fourth decimal. -/
def round4 (q : ℚ) : ℚ := ((ratFloor (q * 10000 + 1 / 2) : ℤ) : ℚ) / 10000

/-- Decimal literal (integer part, optional fractional part) to a rational. -/
def decimalNat (cs : List Char) : Option ℚ :=
  match cs.splitOn '.' with
  | [a] => (digitsNat a).map (fun n => (n : ℚ))
  | [a, b] =>
    if a.isEmpty && b.isEmpty then none
    else
      match (if a.isEmpty then some 0 else digitsNat a),
          (if b.isEmpty then some 0 else digitsNat b) with
      | some n, some m => some ((n : ℚ) + (m : ℚ) / ((10 : ℚ) ^ b.length))
      | _, _ => none
  | _ => none

/-- Python `float(string)`: optional sign and a decimal literal
(special forms such as `inf`, `nan` or exponents are not modelled). -/
def pyFloatStr (s : String) : Option ℚ :=
  match s.toList with
  | '-' :: cs => (decimalNat cs).map (fun q => -q)
  | '+' :: cs => decimalNat cs
  | cs => decimalNat cs

/-- Python `float(v)`: raises (`none`) on `None` or an unparsable string. -/
def pyFloat? (v : Value) : Option ℚ :=
  match v with
  | Value.null => none
  | Value.str s => pyFloatStr s
  | Value.num q => some q

/-- Python dict assignment `row[k] = v`: overwrite in place or append. -/
def dictInsert (row : Row) (k : String) (v : Value) : Row :=
  if (row.find? (fun kv => kv.1 == k)).isSome then
    row.map (fun kv => if kv.1 == k then (kv.1, v) else kv)
  else row ++ [(k, v)]

/-- `itertools.groupby`: the maximal contiguous runs of rows with equal key,
each with its key. -/
def chunkBy (f : Row → Value) : List Row → List (Value × List Row)
  | [] => []
  | r :: rs =>
    match chunkBy f rs with
    | [] => [(f r, [r])]
    | (k, g) :: gs =>
      if f r = k then (k, r :: g) :: gs else (f r, [r]) :: (k, g) :: gs

/-- `[float(i[agg_column]) for i in v]`: coerce a run's aggregation cells,
raising on the first failure. -/
def aggVals (agg : String) : List Row → Except String (List ℚ)
  | [] => Except.ok []
  | r :: rs =>
    match pyFloat? (cellD r agg) with
    | none => Except.error "ValueError"
    | some q =>
      match aggVals agg rs with
      | Except.error e => Except.error e
      | Except.ok qs => Except.ok (q :: qs)

/-- One output row of an aggregator: `{group_by: k}` then
`group_row[agg_column] = round(mean(...), 4)`. -/
def aggRow (gb agg : String) (k : Value) (vals : List ℚ) : Row :=
  dictInsert [(gb, k)] agg (Value.num (round4 (pymean vals)))

/-- The loop of `get_groupped_data` over the contiguous runs. -/
def aggChunks (gb agg : String) : List (Value × List Row) → Except String (List Row)
  | [] => Except.ok []
  | (k, g) :: gs =>
    match aggVals agg g with
    | Except.error e => Except.error e
    | Except.ok vals =>
      match aggChunks gb agg gs with
      | Except.error e => Except.error e
      | Except.ok rest => Except.ok (aggRow gb agg k vals :: rest)

/-- `get_groupped_data(data, group_by, agg_column)` from the source
(`agg_function` is fixed to `mean`, the only implemented choice).  A missing
group key, which raises `KeyError` in Python, is conflated with a null cell
and excluded from the claims by hypothesis. -/
def get_groupped_data (data : List Row) (group_by agg_column : String) :
    Except String (List Row) :=
  aggChunks group_by agg_column (chunkBy (fun r => cellD r group_by) data)

/-- `group_vals[gr_val] += [agg_val]` with insertion-ordered keys: append to
the key's list, or append a new key at the end. -/
def upsert : List (Value × List ℚ) → Value → ℚ → List (Value × List ℚ)
  | [], k, x => [(k, [x])]
  | (k', xs) :: rest, k, x =>
    if k = k' then (k', xs ++ [x]) :: rest else (k', xs) :: upsert rest k x

/-- The reading loop of `get_groupped_data_from_file`: accumulate
`float(row.get(agg_col))` under the key `row.get(group_by)` (missing keys give
`None`, a legitimate dict key), raising on a failed coercion. -/
def scanRows (group_by agg_col : String) :
    List Row → List (Value × List ℚ) → Except String (List (Value × List ℚ))
  | [], acc => Except.ok acc
  | r :: rs, acc =>
    match pyFloat? (cellD r agg_col) with
    | none => Except.error "ValueError"
    | some x => scanRows group_by agg_col rs (upsert acc (cellD r group_by) x)

/-- `get_groupped_data_from_file` from the source, on the parsed rows of the
file: the fused read-and-group path.  Its `try/except` catches a failure
mid-scan and returns the rows accumulated so far, which is the empty list. -/
def get_groupped_data_from_file (rows : List Row) (group_by agg_col : String) :
    List Row :=
  match scanRows group_by agg_col rows [] with
  | Except.error _ => []
  | Except.ok gv => gv.map (fun kv => aggRow group_by agg_col kv.1 kv.2)

theorem cellD_aggRow (gb agg : String) (hne : gb ≠ agg) (k : Value)
    (vals : List ℚ) : cellD (aggRow gb agg k vals) gb = k := by
  have h1 : (gb == agg) = false := beq_eq_false_iff_ne.mpr hne
  simp [aggRow, dictInsert, lookup?, cellD, List.find?, h1]

theorem chunkBy_cons_nil (f : Row → Value) (r : Row) (rs : List Row)
    (hc : chunkBy f rs = []) : chunkBy f (r :: rs) = [(f r, [r])] := by
  rw [chunkBy, hc]

theorem chunkBy_cons_cons (f : Row → Value) (r : Row) (rs : List Row)
    (k : Value) (g : List Row) (gs : List (Value × List Row))
    (hc : chunkBy f rs = (k, g) :: gs) :
    chunkBy f (r :: rs) =
      if f r = k then (k, r :: g) :: gs else (f r, [r]) :: (k, g) :: gs := by
  rw [chunkBy, hc]

/-- Every chunk key is the group value of some input row. -/
theorem mem_chunkBy_key (f : Row → Value) :
    ∀ (l : List Row) (kg : Value × List Row), kg ∈ chunkBy f l →
      kg.1 ∈ l.map f
  | r :: rs, kg, h => by
    cases hc : chunkBy f rs with
    | nil =>
      rw [chunkBy_cons_nil f r rs hc] at h
      rcases List.mem_singleton.mp h with rfl
      exact List.mem_cons_self _ _
    | cons kg0 gs =>
      obtain ⟨k, g⟩ := kg0
      rw [chunkBy_cons_cons f r rs k g gs hc] at h
      by_cases he : f r = k
      · rw [if_pos he] at h
        rcases List.mem_cons.mp h with rfl | h2
        · rw [← he]; exact List.mem_cons_self _ _
        · have : kg ∈ chunkBy f rs := by rw [hc]; exact List.mem_cons_of_mem _ h2
          exact List.mem_cons_of_mem _ (mem_chunkBy_key f rs kg this)
      · rw [if_neg he] at h
        rcases List.mem_cons.mp h with rfl | h2
        · exact List.mem_cons_self _ _
        · have : kg ∈ chunkBy f rs := by rw [hc]; exact h2
          exact List.mem_cons_of_mem _ (mem_chunkBy_key f rs kg this)

/-- Adjacent chunks of `chunkBy` have distinct keys: the runs are maximal. -/
theorem chunkBy_chain' (f : Row → Value) :
    ∀ l : List Row, (chunkBy f l).Chain' (fun a b => a.1 ≠ b.1)
  | [] => List.chain'_nil
  | r :: rs => by
    cases hc : chunkBy f rs with
    | nil => rw [chunkBy_cons_nil f r rs hc]; exact List.chain'_singleton _
    | cons kg0 gs =>
      obtain ⟨k, g⟩ := kg0
      rw [chunkBy_cons_cons f r rs k g gs hc]
      have ih : ((k, g) :: gs).Chain' (fun a b => a.1 ≠ b.1) := by
        rw [← hc]; exact chunkBy_chain' f rs
      by_cases he : f r = k
      · rw [if_pos he]
        rcases List.chain'_cons'.mp ih with ⟨hhead, htail⟩
        exact List.chain'_cons'.mpr ⟨hhead, htail⟩
      · rw [if_neg he]
        exact List.chain'_cons'.mpr
          ⟨fun y hy => by
            rw [List.head?_cons] at hy
            have h2 := Option.mem_def.mp hy
            injection h2 with h3
            rw [← h3]
            exact he, ih⟩

/-- A successful contiguous aggregation outputs exactly the chunk keys, in
order, in the group column. -/
theorem aggChunks_ok_map (gb agg : String) (hne : gb ≠ agg) :
    ∀ (gs : List (Value × List Row)) (out : List Row),
      aggChunks gb agg gs = Except.ok out →
      out.map (fun row => cellD row gb) = gs.map (fun kg => kg.1)
  | [], out, h => by
    rw [aggChunks] at h
    cases h
    rfl
  | (k, g) :: gs, out, h => by
    rw [aggChunks] at h
    cases hv : aggVals agg g with
    | error e => rw [hv] at h; cases h
    | ok vals =>
      rw [hv] at h
      cases hr : aggChunks gb agg gs with
      | error e => rw [hr] at h; cases h
      | ok rest =>
        rw [hr] at h
        cases h
        rw [List.map_cons, List.map_cons, cellD_aggRow gb agg hne,
          aggChunks_ok_map gb agg hne gs rest hr]

theorem upsert_keys (acc : List (Value × List ℚ)) (k : Value) (x : ℚ) :
    (upsert acc k x).map (fun kv => kv.1) =
      if k ∈ acc.map (fun kv => kv.1) then acc.map (fun kv => kv.1)
      else acc.map (fun kv => kv.1) ++ [k] := by
  induction acc with
  | nil => simp [upsert]
  | cons kv rest ih =>
    obtain ⟨k', xs⟩ := kv
    rw [upsert]
    by_cases he : k = k'
    · rw [if_pos he]
      have : k ∈ ((k', xs) :: rest).map (fun kv => kv.1) := by
        rw [List.map_cons]; exact he ▸ List.mem_cons_self _ _
      rw [if_pos this]
      rfl
    · rw [if_neg he, List.map_cons, List.map_cons, ih]
      by_cases hm : k ∈ rest.map (fun kv => kv.1)
      · rw [if_pos hm, if_pos (List.mem_cons_of_mem _ hm)]
      · rw [if_neg hm, if_neg (by
          rw [List.mem_cons]
          rintro (h | h)
          · exact he h
          · exact hm h)]
        rfl

theorem upsert_keys_mem (acc : List (Value × List ℚ)) (k K : Value) (x : ℚ) :
    K ∈ (upsert acc k x).map (fun kv => kv.1) ↔
      K ∈ acc.map (fun kv => kv.1) ∨ K = k := by
  rw [upsert_keys]
  by_cases hm : k ∈ acc.map (fun kv => kv.1)
  · rw [if_pos hm]
    constructor
    · exact fun h => Or.inl h
    · rintro (h | rfl)
      · exact h
      · exact hm
  · rw [if_neg hm, List.mem_append, List.mem_singleton]

theorem upsert_keys_nodup (acc : List (Value × List ℚ)) (k : Value) (x : ℚ)
    (h : (acc.map (fun kv => kv.1)).Nodup) :
    ((upsert acc k x).map (fun kv => kv.1)).Nodup := by
  rw [upsert_keys]
  by_cases hm : k ∈ acc.map (fun kv => kv.1)
  · rw [if_pos hm]; exact h
  · rw [if_neg hm]
    exact h.append (List.nodup_singleton k)
      (by simpa [List.disjoint_singleton] using hm)

theorem scanRows_keys (gb agg : String) :
    ∀ (rows : List Row) (acc gv : List (Value × List ℚ)),
      scanRows gb agg rows acc = Except.ok gv →
      ((acc.map (fun kv => kv.1)).Nodup → (gv.map (fun kv => kv.1)).Nodup)
      ∧ ∀ K, K ∈ gv.map (fun kv => kv.1) ↔
          K ∈ acc.map (fun kv => kv.1) ∨ K ∈ rows.map (fun r => cellD r gb)
  | [], acc, gv, h => by
    rw [scanRows] at h
    cases h
    exact ⟨id, fun K => by simp⟩
  | r :: rs, acc, gv, h => by
    rw [scanRows] at h
    cases hf : pyFloat? (cellD r agg) with
    | none => rw [hf] at h; cases h
    | some x =>
      rw [hf] at h
      have ih := scanRows_keys gb agg rs (upsert acc (cellD r gb) x) gv h
      refine ⟨fun hnod => ih.1 (upsert_keys_nodup acc _ x hnod), fun K => ?_⟩
      rw [ih.2 K, upsert_keys_mem, List.map_cons, List.mem_cons]
      constructor
      · rintro ((h1 | h1) | h1)
        · exact Or.inl h1
        · exact Or.inr (Or.inl h1)
        · exact Or.inr (Or.inr h1)
      · rintro (h1 | h1 | h1)
        · exact Or.inl (Or.inl h1)
        · exact Or.inl (Or.inr h1)
        · exact Or.inr h1

/-- C6: on an input whose group column holds the key `K` in exactly two
(necessarily non-adjacent, by `chunkBy_chain'`) maximal runs, the contiguous
aggregator `get_groupped_data` emits exactly two rows for `K`, while the
streaming aggregator `get_groupped_data_from_file` on the same rows emits
exactly one row per distinct key — in particular exactly one row for `K`.
Hypotheses: the two columns are distinct, the contiguous pass returned `ok`
(all aggregation cells coerce) and the streaming scan succeeded. -/
theorem C6_groupby_contiguous_vs_streaming
    (rows : List Row) (gb agg : String) (K : Value) (hne : gb ≠ agg)
    (outC : List Row) (hC : get_groupped_data rows gb agg = Except.ok outC)
    (gv : List (Value × List ℚ)) (hS : scanRows gb agg rows [] = Except.ok gv)
    (hruns : (chunkBy (fun r => cellD r gb) rows).countP
        (fun kg => kg.1 == K) = 2) :
    outC.countP (fun row => cellD row gb == K) = 2
    ∧ (get_groupped_data_from_file rows gb agg).countP
        (fun row => cellD row gb == K) = 1
    ∧ ∀ K' : Value, (get_groupped_data_from_file rows gb agg).countP
        (fun row => cellD row gb == K')
      = if K' ∈ rows.map (fun r => cellD r gb) then 1 else 0 := by
  rw [get_groupped_data] at hC
  have hmapC := aggChunks_ok_map gb agg hne _ outC hC
  have hcont : outC.countP (fun row => cellD row gb == K) = 2 := by
    have e1 : (outC.map (fun row => cellD row gb)).countP (fun v => v == K)
        = outC.countP (fun row => cellD row gb == K) := List.countP_map _ _ _
    have e2 : (((chunkBy (fun r => cellD r gb) rows).map (fun kg => kg.1)).countP
          (fun v => v == K))
        = (chunkBy (fun r => cellD r gb) rows).countP (fun kg => kg.1 == K) :=
      List.countP_map _ _ _
    rw [← e1, hmapC, e2, hruns]
  have hkeys := scanRows_keys gb agg rows [] gv hS
  have hnodup : (gv.map (fun kv => kv.1)).Nodup := hkeys.1 List.nodup_nil
  have hmem : ∀ K', K' ∈ gv.map (fun kv => kv.1) ↔
      K' ∈ rows.map (fun r => cellD r gb) := by
    intro K'
    rw [hkeys.2 K']
    simp
  have hstream : ∀ K' : Value, (get_groupped_data_from_file rows gb agg).countP
      (fun row => cellD row gb == K')
      = if K' ∈ rows.map (fun r => cellD r gb) then 1 else 0 := by
    intro K'
    have hout : get_groupped_data_from_file rows gb agg
        = gv.map (fun kv => aggRow gb agg kv.1 kv.2) := by
      rw [get_groupped_data_from_file, hS]
    rw [hout]
    have e3 : ((gv.map (fun kv => aggRow gb agg kv.1 kv.2)).countP
          (fun row => cellD row gb == K'))
        = gv.countP (fun kv => cellD (aggRow gb agg kv.1 kv.2) gb == K') :=
      List.countP_map _ _ _
    rw [e3, List.countP_congr (fun kv _ => by rw [cellD_aggRow gb agg hne])]
    have e4 : (gv.map (fun kv => kv.1)).countP (fun v => v == K')
        = gv.countP (fun kv => kv.1 == K') := List.countP_map _ _ _
    rw [← e4]
    by_cases hm : K' ∈ rows.map (fun r => cellD r gb)
    · rw [if_pos hm]
      have hm' : K' ∈ gv.map (fun kv => kv.1) := (hmem K').mpr hm
      have := List.count_eq_one_of_mem hnodup hm'
      rw [← this, List.count_eq_countP]
    · rw [if_neg hm]
      have hm' : K' ∉ gv.map (fun kv => kv.1) := fun h => hm ((hmem K').mp h)
      rw [show ((gv.map (fun kv => kv.1)).countP (fun v => v == K')) =
          (gv.map (fun kv => kv.1)).count K' from (List.count_eq_countP _ _).symm]
      exact List.count_eq_zero.mpr hm'
  have hKmem : K ∈ rows.map (fun r => cellD r gb) := by
    have hpos : 0 < (chunkBy (fun r => cellD r gb) rows).countP
        (fun kg => kg.1 == K) := by rw [hruns]; omega
    obtain ⟨kg, hkg, hpk⟩ := List.countP_pos_iff.mp hpos
    have := mem_chunkBy_key _ rows kg hkg
    rwa [beq_iff_eq.mp hpk] at this
  refine ⟨hcont, ?_, hstream⟩
  rw [hstream K, if_pos hKmem]

/-- C6 witness: rows `A,B,A` (values 1, 2, 3): two contiguous runs for `A`,
so the contiguous aggregator emits two `A`-rows and the streaming aggregator
one. -/
theorem C6_groupby_contiguous_vs_streaming_witness :
    get_groupped_data
        [[("g", Value.str "A"), ("v", Value.str "1")],
         [("g", Value.str "B"), ("v", Value.str "2")],
         [("g", Value.str "A"), ("v", Value.str "3")]] "g" "v"
      = Except.ok
        [aggRow "g" "v" (Value.str "A") [1],
         aggRow "g" "v" (Value.str "B") [2],
         aggRow "g" "v" (Value.str "A") [3]]
    ∧ (get_groupped_data_from_file
        [[("g", Value.str "A"), ("v", Value.str "1")],
         [("g", Value.str "B"), ("v", Value.str "2")],
         [("g", Value.str "A"), ("v", Value.str "3")]] "g" "v").countP
        (fun row => cellD row "g" == Value.str "A") = 1 :=
  ⟨rfl,
    (C6_groupby_contiguous_vs_streaming
      [[("g", Value.str "A"), ("v", Value.str "1")],
       [("g", Value.str "B"), ("v", Value.str "2")],
       [("g", Value.str "A"), ("v", Value.str "3")]] "g" "v" (Value.str "A")
      (by decide)
      [aggRow "g" "v" (Value.str "A") [1],
       aggRow "g" "v" (Value.str "B") [2],
       aggRow "g" "v" (Value.str "A") [3]] rfl
      [(Value.str "A", [1, 3]), (Value.str "B", [2])] rfl
      rfl).2.1⟩

/-! ### Tabular I/O (`read_csv`, `print_data_csv`)

`read_csv` wraps the whole open/parse in `try/except`, but the two branches
accumulate differently.  We model the file system and `csv.DictReader` as a
*stream outcome*: the rows the reader yielded successfully, in order, and an
optional failure that ended the iteration (a failed `open` is a failure after
zero rows; a clean end of file is no failure).  With a truthy `columns`
argument the source appends one projected row per yielded row inside the
`try`, so a mid-iteration failure leaves the projected prefix in `data` and
`return data` returns it; with a falsy `columns` the whole list comprehension
`[row for row in reader]` is assigned at once, so a failure leaves `data`
empty.  The projection uses `row.get(col)` (null for a missing column).

`print_data_csv` prints a header made with the string literal `','` and then
one line per row, each cell rendered with `str(v)`, wrapped in double quotes
iff it contains the delimiter, concatenated behind the delimiter and with the
first character dropped (`csv_row[1:]`).  We model the printed lines as the
returned list of strings. -/

/-- `read_csv(file_path, delimiter, columns, encoding)` from the source.
`yielded` are the rows the reader produced before the iteration ended;
`failure` is the exception that ended it, if any (`some` after zero rows for
a failed `open`).  Always total — the `except` swallows every failure — but
what is returned then depends on the branch: the truthy-`columns` loop has
already appended the projected prefix (the projection itself, built from
`row.get`, cannot raise), while the falsy-`columns` comprehension assigns
only on success, leaving `data` as the initial `[]`. -/
def read_csv (yielded : List Row) (failure : Option String)
    (columns : Option (List String)) : List Row :=
  match columns with
  | some (c :: cs) =>
    yielded.map (fun row => (c :: cs).map (fun col => (col, cellD row col)))
  | _ =>
    match failure with
    | some _ => []
    | none => yielded

/-- Python truthiness of the `n_rows` argument. -/
def truthyNat (n : Option ℕ) : Bool :=
  match n with
  | none => false
  | some k => k != 0

/-- Whether `hay` starts with `pat`. -/
def startsWithL : List Char → List Char → Bool
  | _, [] => true
  | [], _ :: _ => false
  | c :: cs, p :: ps => c == p && startsWithL cs ps

/-- Python substring containment `pat in hay`. -/
def containsSub (pat : List Char) : List Char → Bool
  | [] => pat.isEmpty
  | c :: t => startsWithL (c :: t) pat || containsSub pat t

/-- Python `str(v)`.  The decimal rendering of a non-integer float is
approximated (no verified claim depends on it). -/
def pyStr (v : Value) : String :=
  match v with
  | Value.null => "None"
  | Value.str s => s
  | Value.num q =>
    if q.den = 1 then toString q.num ++ ".0"
    else toString q.num ++ "/" ++ toString q.den

/-- The cell rendering of `print_data_csv`: `if delimiter in str(v):
v = f'"{v}"'`. -/
def quoteCell (delimiter : String) (v : Value) : String :=
  if containsSub delimiter.toList (pyStr v).toList
  then "\"" ++ pyStr v ++ "\"" else pyStr v

/-- `get_columns(data)` from the source: the keys of the first record; an
empty table (`data[0]` raises) or a falsy first record (`assert data[0]`)
is caught and yields the empty column list. -/
def get_columns (data : List Row) : List String :=
  match data with
  | [] => []
  | r :: _ => if r.isEmpty then [] else rowKeys r

/-- One printed data line: cells appended behind the delimiter, first
character dropped (`csv_row[1:]`). -/
def rowLine (delimiter : String) (row : Row) : String :=
  (String.join (row.map (fun kv => delimiter ++ quoteCell delimiter kv.2))).drop 1

/-- `print_data_csv(data, delimiter, n_rows)` from the source, returning the
printed lines: truncation first (only when `n_rows` is truthy and the table
has at least `n_rows` rows), nothing for an empty table, else the header
joined with the literal `','` and one line per row. -/
def print_data_csv (data : List Row) (delimiter : String)
    (n_rows : Option ℕ) : List String :=
  let data' := if truthyNat n_rows && decide (data.length ≥ n_rows.getD 0)
    then data.take (n_rows.getD 0) else data
  if data'.length = 0 then []
  else String.intercalate "," (get_columns data') :: data'.map (rowLine delimiter)

/-- C7 counterexample.  The claim says every I/O or parse failure yields the
empty table; but with a truthy `columns` argument the source appends one
projected row per yielded row *inside* the `try`, so a parse or decoding
error striking after the first row was read leaves that row in `data`, and
the `except` handler returns it: the result is a non-empty table. -/
theorem C7_counterexample :
    read_csv [[("a", Value.str "1")]] (some "csv.Error") (some ["a"])
      = [[("a", Value.str "1")]]
    ∧ ([[("a", Value.str "1")]] : List Row) ≠ [] :=
  ⟨rfl, by decide⟩

/-- C7 (amended): `read_csv` never raises to its caller — it is a total
function of the stream outcome, every failure being caught and logged — but
what a failure returns depends on the branch: with a falsy `columns` (absent
or the empty list) any failure yields the empty table; with a truthy
`columns` a failure yields the rows projected before it struck, which is the
empty table only when the failure preceded the first row. -/
theorem C7_read_csv_failure_modes (yielded : List Row) (msg : String) :
    read_csv yielded (some msg) none = []
    ∧ read_csv yielded (some msg) (some []) = []
    ∧ ∀ c cs, read_csv yielded (some msg) (some (c :: cs)) =
          yielded.map (fun row => (c :: cs).map (fun col => (col, cellD row col)))
        ∧ read_csv ([] : List Row) (some msg) (some (c :: cs)) = [] :=
  ⟨rfl, rfl, fun _ _ => ⟨rfl, rfl⟩⟩

/-- C9: a cell is wrapped in double quotes iff its string form contains the
delimiter, and embedded double quotes are never escaped: the quote count of
the rendered cell is that of the string form, plus exactly the two wrapping
quotes when wrapping occurs. -/
theorem C9_quote_iff_contains_delimiter (delimiter : String) (v : Value) :
    (containsSub delimiter.toList (pyStr v).toList = true →
      quoteCell delimiter v = "\"" ++ pyStr v ++ "\"")
    ∧ (containsSub delimiter.toList (pyStr v).toList = false →
      quoteCell delimiter v = pyStr v)
    ∧ (quoteCell delimiter v).toList.count '"' =
        (pyStr v).toList.count '"' +
          (if containsSub delimiter.toList (pyStr v).toList then 2 else 0) := by
  refine ⟨fun h => by rw [quoteCell, if_pos h], fun h => by rw [quoteCell, h]; rfl, ?_⟩
  cases h : containsSub delimiter.toList (pyStr v).toList with
  | true =>
    rw [quoteCell, if_pos h]
    have hl : ("\"" ++ pyStr v ++ "\"").toList = '"' :: ((pyStr v).toList ++ ['"']) := by
      simp
    rw [hl]
    simp [List.count_cons, List.count_append]
  | false =>
    rw [quoteCell, h]
    simp

/-- C9 witness: with the default delimiter, a cell containing a comma is
wrapped. -/
theorem C9_quote_iff_contains_delimiter_witness :
    containsSub (",").toList ("a,b").toList = true
    ∧ quoteCell "," (Value.str "a,b") = "\"a,b\"" :=
  ⟨by decide,
    (C9_quote_iff_contains_delimiter "," (Value.str "a,b")).1 (by decide)⟩

/-- C10: for a non-empty table (and no row limit), the emitted lines are the
header — column names joined with the string literal `','`, whatever the
`delimiter` argument is — followed by one line per row, each joined with the
given delimiter; hence for any delimiter other than `','` the header and the
data lines use different separators. -/
theorem C10_header_comma_rows_delimiter (data : List Row) (delimiter : String)
    (h : data ≠ []) :
    print_data_csv data delimiter none =
      String.intercalate "," (get_columns data) :: data.map (rowLine delimiter) := by
  rw [print_data_csv]
  have h0 : truthyNat none = false := rfl
  simp only [h0, Bool.false_and, if_false, Bool.false_eq_true]
  rw [if_neg (by simpa using h)]

/-- C10 witness: with delimiter `';'` the header line still uses `','` while
the data line uses `';'`. -/
theorem C10_header_comma_rows_delimiter_witness :
    print_data_csv [[("a", Value.str "1"), ("b", Value.str "2")]] ";" none
      = ["a,b", "1;2"] := by
  rw [C10_header_comma_rows_delimiter
    [[("a", Value.str "1"), ("b", Value.str "2")]] ";" (by decide)]
  rfl

end Movies
